import Mathlib

/-!
Shallow embedding of the schema compiler in `generate.py`: the schema model
(`Field`, `BitField`, `Struct`), the input tree (`FieldSpec`, `StructSpec`),
the validator (`validate_integral_type`, `check_field`, `check_bitfield`),
the layout computation and the code emitter (`Generator.add_one`,
`Generator.generate`).  Python exceptions are modelled by the `PyErr` error
type of an `Except` monad; Python integers are `Nat`/`Int`.
-/

namespace BinGen

/-- Python runtime exceptions that the compiler can raise.  `nameError v`
models evaluation of an unbound variable `v`; `keyError k` a failed dict
lookup; `exception msg` an explicitly raised `Exception(msg)`. -/
inductive PyErr where
  | nameError (v : String)
  | typeError
  | keyError (k : String)
  | valueError
  | indexError
  | exception (msg : String)
deriving DecidableEq

/-- `BitField` namedtuple: a named bit-subfield with its width in bits. -/
structure BitField where
  name : String
  size : Nat
deriving DecidableEq

/-- `Field` namedtuple of generate.py: name, byte offset, type tag `ty`
(an integral kind name, or `"array"`/`"bitfield"` after parsing), optional
element/storage type, optional bit sub-fields, optional array length, and
endianness string. -/
structure Field where
  name : String
  offset : Nat
  ty : String
  sub_type : Option String
  bit_fields : Option (List BitField)
  array_num : Option Nat
  endian : String
deriving DecidableEq

/-- `Struct` namedtuple: a name and the declaration-ordered field list. -/
structure Struct where
  name : String
  fields : List Field
deriving DecidableEq

/-- One entry of a field's `bit_fields` input list: `{name, size?}`,
`size` defaulting to 1. -/
structure BitSpec where
  name : String
  size : Option Nat
deriving DecidableEq

/-- One entry of a structure's `fields` input list, as consumed by
`Parser.add_one`: `{name, offset, type, endian?, bit_fields?}`. -/
structure FieldSpec where
  name : String
  offset : Nat
  type : String
  endian : Option String
  bit_fields : Option (List BitSpec)
deriving DecidableEq

/-- One structure of the input schema tree: `{name, endian?, fields}`. -/
structure StructSpec where
  name : String
  endian : Option String
  fields : List FieldSpec
deriving DecidableEq

/-- `set_bits(num)`: starting from `val = 0, ctr = 1`, the loop
`for i in range(num): val |= ctr; ctr = ctr * 2` returns `val`. -/
def set_bits (num : Nat) : Nat :=
  ((List.range num).foldl (fun (p : Nat × Nat) _ => (p.1 ||| p.2, p.2 * 2)) (0, 1)).1

/-- The core language of `_NAME_RE = ^(u)?int(8|16|32|64)$`: the eight
fixed-width kind names. -/
def kind_name (s : String) : Bool :=
  s = "int8" || s = "int16" || s = "int32" || s = "int64" ||
  s = "uint8" || s = "uint16" || s = "uint32" || s = "uint64"

/-- `_NAME_RE.match(s)` for `_NAME_RE = ^(u)?int(8|16|32|64)$`: one of the
eight kind names, or — because Python's non-MULTILINE `$` also matches just
before a newline that is the string's last character — a kind name followed
by exactly one trailing newline. -/
def name_re_match (s : String) : Bool :=
  kind_name s ||
    (s.data.getLast? = some '\n' && kind_name (String.mk s.data.dropLast))

/-- `validate_integral_type(name)`: `uintptr` or a `_NAME_RE` match. -/
def validate_integral_type (name : String) : Bool :=
  name = "uintptr" || name_re_match name

/-- The `SIZES` dict: byte widths of the fixed-width integral kinds
(`uintptr` has no entry). -/
def SIZES (s : String) : Option Nat :=
  if s = "int8" then some 1 else if s = "uint8" then some 1
  else if s = "int16" then some 2 else if s = "uint16" then some 2
  else if s = "int32" then some 4 else if s = "uint32" then some 4
  else if s = "int64" then some 8 else if s = "uint64" then some 8
  else none

/-- `re.match` with `_ARRAY_RE = (.*?)\[(\d)+\]` on the character list
`rest`, with `pre` the characters already consumed by the lazy group
`(.*?)`.  The lazy group tries each position in turn; at a literal `[` the
repeated single-character group `(\d)` consumes the maximal digit run (the
group retaining only the LAST digit) and the match succeeds when a `]`
follows.  Returns `(group 1, group 2)`.  Known divergence: this scan walks
past newline characters that Python's default-mode `.` in `(.*?)` cannot
cross, so on newline-containing type strings the model may match where
Python does not; every such string still fails validation identically on
both sides. -/
def array_re_match_from (pre : List Char) : List Char → Option (List Char × Char)
  | [] => none
  | c :: cs =>
    if c = '[' then
      let ds := cs.takeWhile Char.isDigit
      let rest := cs.dropWhile Char.isDigit
      match ds.getLast?, rest with
      | some d, ']' :: _ => some (pre, d)
      | _, _ => array_re_match_from (pre ++ [c]) cs
    else
      array_re_match_from (pre ++ [c]) cs

/-- `_ARRAY_RE.match(s)`, returning `(match.group(1), match.group(2))`. -/
def array_re_match (s : String) : Option (String × Char) :=
  (array_re_match_from [] s.data).map (fun p => (String.mk p.1, p.2))

/-- `int` applied to the single-digit string of `_ARRAY_RE`'s group 2. -/
def digitVal (c : Char) : Nat := c.toNat - 48

/-- `ty.split('.', 1)` unpacked into two pieces: the part before the first
dot and everything after it; `none` when no dot occurs (in which case the
two-target unpacking in the source raises `ValueError`). -/
def split_first_dot_from (pre : List Char) : List Char → Option (String × String)
  | [] => none
  | c :: cs =>
    if c = '.' then some (String.mk pre, String.mk cs)
    else split_first_dot_from (pre ++ [c]) cs

/-- `ty.split('.', 1)` as used in `Parser.add_one`. -/
def split_first_dot (s : String) : Option (String × String) :=
  split_first_dot_from [] s.data

/-- The sub-field list built in `Parser.add_one`:
`[BitField(x['name'], x.get('size', 1)) for x in field['bit_fields']]`. -/
def parse_bit_fields (xs : List BitSpec) : List BitField :=
  xs.map (fun x => ⟨x.name, x.size.getD 1⟩)

/-- `Parser._check_field(field)`: the effective storage type is the
`sub_type` for an array or bitfield, the `ty` itself otherwise; an invalid
type triggers `raise Exception('Invalid type given for field "%s": %s' %
(name, check))` — but `name` is unbound in that scope, so evaluating the
format arguments raises `NameError` for `name` instead.  A `None` effective
type makes `re.match` inside `validate_integral_type` raise `TypeError`. -/
def check_field (field : Field) : Except PyErr Unit :=
  let check : Option String :=
    if field.ty = "array" ∨ field.ty = "bitfield" then field.sub_type
    else some field.ty
  match check with
  | none => .error .typeError
  | some c =>
    if validate_integral_type c then .ok ()
    else .error (.nameError "name")

/-- `Parser._check_bitfield(struct_name, field)`: rejects `uintptr`
storage; then compares `sum(x.size for x in field.bit_fields)` against
`SIZES[field.sub_type] * 8`. -/
def check_bitfield (struct_name : String) (field : Field) : Except PyErr Unit :=
  if field.sub_type = some "uintptr" then
    .error (.exception ("Bitfields can\x27t be uintptr (field \"" ++ field.name ++
      "\" in \"" ++ struct_name ++ "\")"))
  else
    match field.bit_fields with
    | none => .error .typeError
    | some bfs =>
      let num_bits := bfs.foldl (fun a x => a + x.size) 0
      match field.sub_type with
      | none => .error (.keyError "None")
      | some st =>
        match SIZES st with
        | none => .error (.keyError st)
        | some sz =>
          let max_bits := sz * 8
          if num_bits > max_bits then
            .error (.exception ("Too many bits in field \"" ++ field.name ++
              "\" of structure \"" ++ struct_name ++ "\" - used: " ++
              toString num_bits ++ ", max: " ++ toString max_bits))
          else .ok ()

/-- The per-field body of `Parser.add_one`: defaults, the `bitfield.` split,
the `_ARRAY_RE` match, construction of the `Field`, then `_check_field` and
(for bitfields) `_check_bitfield`. -/
def add_one_field (s_name def_endian : String) (f : FieldSpec) : Except PyErr Field := do
  let endian := f.endian.getD def_endian
  let r1 ←
    if "bitfield".data.isPrefixOf f.type.data then
      match split_first_dot f.type with
      | none => Except.error PyErr.valueError
      | some (t, st) =>
        match f.bit_fields with
        | none => Except.error (PyErr.keyError "bit_fields")
        | some bs =>
          Except.ok (t, some st, some (parse_bit_fields bs))
    else
      Except.ok (f.type, (none : Option String), (none : Option (List BitField)))
  let (ty1, sub1, bits1) := r1
  let (ty2, sub2, arr2) :=
    match array_re_match ty1 with
    | some (st, d) => ("array", some st, some (digitVal d))
    | none => (ty1, sub1, (none : Option Nat))
  let field : Field := ⟨f.name, f.offset, ty2, sub2, bits1, arr2, endian⟩
  check_field field
  if field.ty = "bitfield" then check_bitfield s_name field else pure ()
  pure field

/-- `Parser.add_one(struct)`: reads the name and default endianness, builds
and validates each field in order, aborting at the first failure. -/
def parser_add_one (s : StructSpec) : Except PyErr Struct := do
  let def_endian := s.endian.getD "little"
  let fields ← s.fields.mapM (add_one_field s.name def_endian)
  pure ⟨s.name, fields⟩

/-- `Parser.add(spec)`: `add_one` on every structure, in order. -/
def parser_add (spec : List StructSpec) : Except PyErr (List Struct) :=
  spec.mapM parser_add_one

/-- One step of Python `str.title()` over a character list: a cased (here:
letter) character is uppercased at a word start (previous character not
cased) and lowercased otherwise; `prevCased` tracks the previous character.
Known divergence: only ASCII letters are treated as cased, while `title()`
cases all Unicode cased letters; exact for ASCII names. -/
def pyTitleGo (prevCased : Bool) : List Char → List Char
  | [] => []
  | c :: cs =>
    if c.isAlpha then
      (if prevCased then c.toLower else c.toUpper) :: pyTitleGo true cs
    else
      c :: pyTitleGo false cs

/-- Python `s.title()`. -/
def pyTitle (s : String) : String := String.mk (pyTitleGo false s.data)

/-- `Generator.output_field_name`: `field.name.title()`, taking the name. -/
def output_field_name (name : String) : String := pyTitle name

/-- `struct.name[0].capitalize() + struct.name[1:]`; an empty name makes
the subscript raise `IndexError`. -/
def output_struct_name (name : String) : Except PyErr String :=
  match name.data with
  | [] => .error .indexError
  | c :: cs => .ok (String.mk (c.toUpper :: cs))

/-- A single uppercase hexadecimal digit. -/
def hexDigit (n : Nat) : Char :=
  if n < 10 then Char.ofNat (48 + n) else Char.ofNat (55 + n)

/-- Python `'%X' % n`: uppercase hexadecimal with no leading zeros
(and `"0"` for zero). -/
def hexUpper (n : Nat) : String :=
  if _h : n < 16 then String.mk [hexDigit n]
  else hexUpper (n / 16) ++ String.mk [hexDigit (n % 16)]
decreasing_by exact Nat.div_lt_self (by omega) (by omega)

/-- `'%s' % x` where `x` may be Python `None`. -/
def optStr : Option String → String
  | none => "None"
  | some s => s

/-- The endianness argument chosen for a field's read:
`binary.BigEndian` when the field's endian is `'big'`, else
`binary.LittleEndian`. -/
def endian_str (f : Field) : String :=
  if f.endian = "big" then "binary.BigEndian" else "binary.LittleEndian"

/-- The four lines `Generator.add_one` appends when `diff != 0`: a slack
comment, a `[diff]byte` temporary, an unchecked `binary.Read` with
`binary.LittleEndian`, and a blank line. -/
def slack_lines (diff : Int) (last_name fname tmp : String) : List String :=
  ["// Reading " ++ toString diff ++ " byte(s) of slack between \"" ++
     last_name ++ "\" and \"" ++ fname ++ "\"",
   "var " ++ tmp ++ " [" ++ toString diff ++ "]byte",
   "binary.Read(input, binary.LittleEndian, &" ++ tmp ++ ")",
   ""]

/-- The checked read of a field's raw bytes: `err = binary.Read(...)`
followed by the abort-on-failure branch wrapping the underlying error. -/
def read_err_lines (f : Field) (field_name : String) : List String :=
  ["err = binary.Read(input, " ++ endian_str f ++ ", &" ++ field_name ++ ")",
   "if err != nil \x7b",
   "\treturn nil, errors.New(fmt.Sprintf(\"Error reading field \x27" ++
     f.name ++ "\x27 of structure: %s\", err))",
   "\x7d",
   ""]

/-- The bitfield unpacking loop of `Generator.add_one`: starting at bit
offset `off`, each sub-field contributes a comment and the assignment
`output.NAME = (tmp & 0xMASK) >> OFFSET` with
`MASK = set_bits(sub.size) << OFFSET`, the offset then advancing by
`sub.size`. -/
def bit_unpack_lines (field_name : String) (off : Nat) : List BitField → List String
  | [] => []
  | sub :: rest =>
    let curr_mask := set_bits sub.size <<< off
    ("// Bit field \"" ++ sub.name ++ "\": offset " ++ toString off ++
       ", size " ++ toString sub.size) ::
    ("output." ++ output_field_name sub.name ++ " = (" ++ field_name ++
       " & 0x" ++ hexUpper curr_mask ++ ") >> " ++ toString off) ::
    bit_unpack_lines field_name (off + sub.size) rest

/-- The comment `Generator.add_one` emits in front of every field read. -/
def read_comment_line (f : Field) : String :=
  "// Reading into field \"" ++ f.name ++ "\""

/-- The `last_end` update of `Generator.add_one`:
`offset + SIZES[sub_type]` for a bitfield,
`offset + SIZES[sub_type] * array_num` for an array, and
`offset + SIZES[ty]` otherwise; a missing `SIZES` entry raises `KeyError`
(in particular for `uintptr`), a `None` operand raises `TypeError`. -/
def field_end (f : Field) : Except PyErr Nat :=
  if f.ty = "bitfield" then
    match f.sub_type with
    | none => .error (.keyError "None")
    | some st =>
      match SIZES st with
      | none => .error (.keyError st)
      | some w => .ok (f.offset + w)
  else if f.ty = "array" then
    match f.sub_type with
    | none => .error (.keyError "None")
    | some st =>
      match SIZES st with
      | none => .error (.keyError st)
      | some w =>
        match f.array_num with
        | none => .error .typeError
        | some n => .ok (f.offset + w * n)
  else
    match SIZES f.ty with
    | none => .error (.keyError f.ty)
    | some w => .ok (f.offset + w)

/-- The code lines one iteration of `Generator.add_one`'s field loop
appends, together with the updated temporary counter: the optional slack
block (when `field.offset - last_end != 0`), the read comment, for a
bitfield a fresh temporary declaration, the checked read, and for a
bitfield the unpacking assignments and a blank line. -/
def field_segment (ctr : Nat) (last_name : String) (last_end : Nat)
    (f : Field) : Except PyErr (List String × Nat) :=
  let diff : Int := (f.offset : Int) - (last_end : Int)
  let slack :=
    if diff ≠ 0 then slack_lines diff last_name f.name ("temp" ++ toString ctr)
    else []
  let c1 := if diff ≠ 0 then ctr + 1 else ctr
  if f.ty = "bitfield" then
    match f.bit_fields with
    | none => .error .typeError
    | some subs =>
      let tmp := "temp" ++ toString c1
      .ok (slack ++ [read_comment_line f] ++
           ["var " ++ tmp ++ " " ++ optStr f.sub_type] ++
           read_err_lines f tmp ++
           bit_unpack_lines tmp 0 subs ++ [""], c1 + 1)
  else
    let field_name := "output." ++ output_field_name f.name
    .ok (slack ++ [read_comment_line f] ++ read_err_lines f field_name, c1)

/-- The loop state of `Generator.add_one`'s decode emission: the temporary
counter `ctr`, `last_name`, `last_end`, and the accumulated code lines. -/
structure EmitSt where
  ctr : Nat
  last_name : String
  last_end : Nat
  code : List String
deriving DecidableEq

/-- One iteration of the decode-emission loop: append this field's segment
and update `last_end` (to the field's computed end offset) and
`last_name`. -/
def emit_field (st : EmitSt) (f : Field) : Except PyErr EmitSt := do
  let (seg, c2) ← field_segment st.ctr st.last_name st.last_end f
  let le ← field_end f
  pure ⟨c2, f.name, le, st.code ++ seg⟩

/-- `sorted(struct.fields, key=lambda f: f[1])`: a stable ascending sort by
the offset (slot 1 of the namedtuple).  Python's Timsort is stable, and a
stable sort by a fixed key is unique, so stable insertion sort computes the
same list. -/
def sort_fields (fs : List Field) : List Field :=
  fs.insertionSort (fun a b => a.offset ≤ b.offset)

/-- The decode-procedure body built by `Generator.add_one` for the
offset-sorted field list: the `output`/`err` declarations, one segment per
field, and the trailing total-size comment and `return`; also returns the
final `last_end`. -/
def gen_code_lines (output_name : String) (s_fields : List Field) :
    Except PyErr (List String × Nat) := do
  let init : EmitSt :=
    ⟨0, "*beginning of structure*", 0,
     ["var output " ++ output_name, "var err error", ""]⟩
  let fin ← s_fields.foldlM emit_field init
  pure (fin.code ++
    ["// Total size of structure: " ++ toString fin.last_end ++ " bytes",
     "return &output, nil"], fin.last_end)

/-- The member lines of the type declaration, per declared field: one line
per bit sub-field for a bitfield (none for the bitfield itself), a
fixed-length array member for an array, and a single member otherwise. -/
def defn_field_lines (field : Field) : List String :=
  if field.ty = "bitfield" then
    (field.bit_fields.getD []).map (fun sub =>
      "\t" ++ output_field_name sub.name ++ " " ++ optStr field.sub_type)
  else if field.ty = "array" then
    ["\t" ++ output_field_name field.name ++ " [" ++
       toString (field.array_num.getD 0) ++ "]" ++ optStr field.sub_type]
  else
    ["\t" ++ output_field_name field.name ++ " " ++ field.ty]

/-- `Generator.add_one(struct)`: the chunk of lines appended to
`Generator.defs` for one structure — the type declaration in declaration
order, a blank line, the `ParseX` function header, the decode body (built
over the offset-sorted fields) indented by one tab, and the closing
brace. -/
def generator_add_one (s : Struct) : Except PyErr (List String) := do
  let output_name ← output_struct_name s.name
  let defn :=
    ["type " ++ output_name ++ " struct \x7b"] ++
    s.fields.flatMap defn_field_lines ++ ["\x7d"]
  let s_fields := sort_fields s.fields
  let r ← gen_code_lines output_name s_fields
  pure (defn ++ [""] ++
    ["func Parse" ++ output_name ++ "(input io.Reader) (*" ++ output_name ++
       ", error) \x7b"] ++
    r.1.map (fun x => "\t" ++ x) ++ ["\x7d"])

/-- `Generator.PRELUDE`: the dedented import block, split on newlines. -/
def PRELUDE : List String :=
  ["", "import (", "\t\"encoding/binary\"", "\t\"errors\"", "\t\"fmt\"",
   "\t\"io\"", ")", ""]

/-- `Generator.generate()`: the package line, the prelude, a blank line and
the accumulated definitions, joined with newlines. -/
def generate (pkg_name : String) (defs : List String) : String :=
  String.intercalate "\n"
    (["package " ++ pkg_name, ""] ++ PRELUDE ++ [""] ++ defs)

/-- `Generator.add_from_parser`: `add_one` on every parsed structure in
order, concatenating the emitted chunks into `Generator.defs`. -/
def add_from_parsed (structs : List Struct) : Except PyErr (List String) :=
  structs.foldlM (fun acc s => do pure (acc ++ (← generator_add_one s))) []

/-- The whole parse-and-generate pipeline of `main`: `Parser.add`, then
`Generator.add_from_parser`, then `Generator.generate`. -/
def pipeline (pkg_name : String) (spec : List StructSpec) :
    Except PyErr String := do
  let structs ← parser_add spec
  let defs ← add_from_parsed structs
  pure (generate pkg_name defs)

/-! Analysis-side definitions used to state the claims. -/

/-- Total declared width of a bit sub-field list. -/
def sum_widths (bfs : List BitField) : Nat := (bfs.map BitField.size).sum

/-- The bit offsets the unpacking loop assigns: the first sub-field starts
at `off`, each later one where its predecessor ended. -/
def bit_offsets_from (off : Nat) : List BitField → List Nat
  | [] => []
  | b :: r => off :: bit_offsets_from (off + b.size) r

/-- Closed form of the bitfield unpacking output: for each sub-field,
paired with its bit offset, the comment and the assignment
`output.NAME = (tmp & (set_bits(w) << b)) >> b`. -/
def bit_unpack_flat (field_name : String) (off : Nat) (bfs : List BitField) :
    List String :=
  (bfs.zip (bit_offsets_from off bfs)).flatMap (fun p =>
    ["// Bit field \"" ++ p.1.name ++ "\": offset " ++ toString p.2 ++
       ", size " ++ toString p.1.size,
     "output." ++ output_field_name p.1.name ++ " = (" ++ field_name ++
       " & 0x" ++ hexUpper (set_bits p.1.size <<< p.2) ++ ") >> " ++
       toString p.2])

/-- The extraction the spec prescribes for a sub-field at bit offset `b`
of width `w`: `(raw >> b) & mask(w)`. -/
def spec_extract (raw b w : Nat) : Nat := (raw >>> b) &&& set_bits w

/-- The value computed by the emitted expression
`(raw & (mask(w) << b)) >> b`. -/
def emitted_extract (raw b w : Nat) : Nat := (raw &&& (set_bits w <<< b)) >>> b

/-- The message carried by an explicitly raised exception, if any:
`NameError`/`TypeError`/`KeyError` carry no schema message. -/
def err_message : PyErr → Option String
  | .exception m => some m
  | _ => none

/-- Modelled from the spec: the naming transform the spec describes —
the declared name with its first letter capitalized and all other
characters unchanged. -/
def capitalize_first (s : String) : String :=
  match s.data with
  | [] => ""
  | c :: cs => String.mk (c.toUpper :: cs)

/-- `l` starts with the literal text `p`. -/
def starts_lit (p l : String) : Bool := p.data.isPrefixOf l.data

/-- A structure whose second field begins before the first one ends
(offsets 0 and 2, but the `uint32` at offset 0 extends to 4). -/
def overlap_struct : Struct :=
  ⟨"ov", [⟨"a", 0, "uint32", none, none, none, "little"⟩,
          ⟨"b", 2, "uint8", none, none, none, "little"⟩]⟩

/-- Nine one-bit sub-fields, the spec's bitfield-overflow example. -/
def nine_bits : List BitField := List.replicate 9 ⟨"b", 1⟩

/-- The `Test1` example schema from the module docstring. -/
def test1_spec : StructSpec :=
  ⟨"Test1", none,
   [⟨"foo", 0, "uint8", none, none⟩,
    ⟨"bar", 1, "int16", none, none⟩,
    ⟨"bits", 3, "bitfield.uint8", none,
      some [⟨"flag1", none⟩, ⟨"not_a_flag", some 2⟩]⟩,
    ⟨"an_array", 4, "uint16[2]", none, none⟩]⟩

/-! Helper lemmas. -/

lemma lor_two_pow_sub_one (k : Nat) : 2 ^ k - 1 ||| 2 ^ k = 2 ^ (k + 1) - 1 := by
  apply Nat.eq_of_testBit_eq
  intro i
  simp only [Nat.testBit_lor, Nat.testBit_two_pow_sub_one, Nat.testBit_two_pow]
  by_cases h1 : i < k <;> by_cases h2 : k = i <;> simp [h1, h2] <;> omega

lemma set_bits_pair (n : Nat) :
    (List.range n).foldl (fun (p : Nat × Nat) _ => (p.1 ||| p.2, p.2 * 2)) (0, 1) =
      (2 ^ n - 1, 2 ^ n) := by
  induction n with
  | zero => rfl
  | succ k ih =>
    rw [List.range_succ, List.foldl_append, ih]
    simp only [List.foldl_cons, List.foldl_nil, Prod.mk.injEq]
    exact ⟨lor_two_pow_sub_one k, by rw [Nat.pow_succ]⟩

/-- `set_bits(w)` is the unsigned integer with the low `w` bits set. -/
lemma set_bits_eq (n : Nat) : set_bits n = 2 ^ n - 1 := by
  unfold set_bits
  rw [set_bits_pair]

lemma mask_shift_extract (x m b : Nat) :
    (x &&& (m <<< b)) >>> b = (x >>> b) &&& m := by
  apply Nat.eq_of_testBit_eq
  intro i
  simp only [Nat.testBit_shiftRight, Nat.testBit_land, Nat.testBit_shiftLeft]
  have hb : b + i - b = i := by omega
  simp [hb]

lemma bit_unpack_lines_eq_flat (fn : String) (off : Nat) (bfs : List BitField) :
    bit_unpack_lines fn off bfs = bit_unpack_flat fn off bfs := by
  induction bfs generalizing off with
  | nil => rfl
  | cons b r ih =>
    simp only [bit_unpack_lines, bit_unpack_flat, bit_offsets_from, List.zip_cons_cons,
      List.flatMap_cons]
    rw [ih (off + b.size)]
    rfl

lemma bit_offsets_from_get (off : Nat) (bfs : List BitField) :
    ∀ i, i < bfs.length →
      (bit_offsets_from off bfs).get? i = some (off + sum_widths (bfs.take i)) := by
  induction bfs generalizing off with
  | nil => intro i hi; simp at hi
  | cons b r ih =>
    intro i hi
    cases i with
    | zero => simp [bit_offsets_from, sum_widths]
    | succ j =>
      simp only [bit_offsets_from, List.get?_cons_succ]
      rw [ih (off + b.size) j (by simpa using hi)]
      simp [sum_widths]
      omega

/-- C3: For every bitfield field with sub-fields of declared widths, the
generated decode procedure assigns sub-field `i` via the expression
`(raw & (set_bits(w_i) << b_i)) >> b_i` where `b_i` is the sum of the
earlier-declared widths (tight LSB-first packing, no padding), and that
expression equals `(raw >> b_i) & mask(w_i)` with
`mask(w) = set_bits(w) = 2^w - 1` for every raw storage value. -/
theorem c3_bitfield_extraction (fn : String) (bfs : List BitField) :
    bit_unpack_lines fn 0 bfs = bit_unpack_flat fn 0 bfs
    ∧ (∀ i, i < bfs.length →
        (bit_offsets_from 0 bfs).get? i = some (sum_widths (bfs.take i)))
    ∧ (∀ w, set_bits w = 2 ^ w - 1)
    ∧ (∀ raw b w, emitted_extract raw b w = spec_extract raw b w) := by
  refine ⟨bit_unpack_lines_eq_flat fn 0 bfs, ?_, set_bits_eq, ?_⟩
  · intro i hi
    have h := bit_offsets_from_get 0 bfs i hi
    simpa using h
  · intro raw b w
    exact mask_shift_extract raw (set_bits w) b

/-- Witness for C3 at the spec's bitfield example
(`flag1` of width 1, `not_a_flag` of width 2, raw value 6). -/
theorem c3_witness :
    bit_unpack_lines "temp0" 0 [⟨"flag1", 1⟩, ⟨"not_a_flag", 2⟩] =
      bit_unpack_flat "temp0" 0 [⟨"flag1", 1⟩, ⟨"not_a_flag", 2⟩]
    ∧ (bit_offsets_from 0 [⟨"flag1", 1⟩, ⟨"not_a_flag", 2⟩]).get? 1 =
        some (sum_widths ([⟨"flag1", 1⟩, ⟨"not_a_flag", 2⟩].take 1))
    ∧ emitted_extract 6 1 2 = spec_extract 6 1 2 := by
  obtain ⟨h1, h2, _, h4⟩ := c3_bitfield_extraction "temp0" [⟨"flag1", 1⟩, ⟨"not_a_flag", 2⟩]
  exact ⟨h1, h2 1 (by decide), h4 6 1 2⟩

lemma SIZES_isSome_of_kind_name (st : String) (h : kind_name st = true) :
    ∃ w, SIZES st = some w := by
  unfold kind_name at h
  simp only [Bool.or_eq_true, decide_eq_true_eq] at h
  rcases h with ((((((h | h) | h) | h) | h) | h) | h) | h <;> subst h
  all_goals first
    | exact ⟨1, rfl⟩ | exact ⟨2, rfl⟩ | exact ⟨4, rfl⟩ | exact ⟨8, rfl⟩

/-- C5: For every bitfield field whose storage type is a valid storage-type
name, `check_bitfield` raises an error if and only if the storage type is
`uintptr` or the sum of the declared sub-field widths exceeds 8 times the
storage type's byte size; otherwise the bitfield validates. -/
theorem c5_check_bitfield_iff (sn : String) (f : Field) (st : String)
    (bfs : List BitField) (hsub : f.sub_type = some st)
    (hval : st = "uintptr" ∨ kind_name st = true)
    (hbf : f.bit_fields = some bfs) :
    ((∃ e, check_bitfield sn f = .error e) ↔
      (st = "uintptr" ∨ ∃ w, SIZES st = some w ∧
        bfs.foldl (fun a x => a + x.size) 0 > w * 8))
    ∧ (check_bitfield sn f = .ok () ↔
      ¬(st = "uintptr" ∨ ∃ w, SIZES st = some w ∧
        bfs.foldl (fun a x => a + x.size) 0 > w * 8)) := by
  by_cases hu : st = "uintptr"
  · subst hu
    have hcb : ∃ m, check_bitfield sn f = .error (.exception m) := by
      simp [check_bitfield, hsub]
    obtain ⟨m, hm⟩ := hcb
    rw [hm]
    constructor
    · constructor
      · intro _; exact Or.inl rfl
      · intro _; exact ⟨_, rfl⟩
    · constructor
      · intro h; cases h
      · intro h; exact absurd (Or.inl rfl) h
  · have hk : kind_name st = true := by
      rcases hval with h | h
      · exact absurd h hu
      · exact h
    obtain ⟨w, hw⟩ := SIZES_isSome_of_kind_name st hk
    have hcb : check_bitfield sn f =
        (if bfs.foldl (fun a x => a + x.size) 0 > w * 8 then
          .error (.exception ("Too many bits in field \"" ++ f.name ++
            "\" of structure \"" ++ sn ++ "\" - used: " ++
            toString (bfs.foldl (fun a x => a + x.size) 0) ++ ", max: " ++
            toString (w * 8))) else .ok ()) := by
      simp [check_bitfield, hsub, hbf, hw, hu]
    by_cases hgt : bfs.foldl (fun a x => a + x.size) 0 > w * 8
    · rw [hcb, if_pos hgt]
      constructor
      · constructor
        · intro _; exact Or.inr ⟨w, hw, hgt⟩
        · intro _; exact ⟨_, rfl⟩
      · constructor
        · intro h; cases h
        · intro h; exact absurd (Or.inr ⟨w, hw, hgt⟩) h
    · rw [hcb, if_neg hgt]
      constructor
      · constructor
        · intro ⟨e, he⟩; cases he
        · intro h
          rcases h with h | ⟨w2, hw2, hgt2⟩
          · exact absurd h hu
          · rw [hw] at hw2
            cases hw2
            exact absurd hgt2 hgt
      · constructor
        · intro _
          rintro (h | ⟨w2, hw2, hgt2⟩)
          · exact hu h
          · rw [hw] at hw2
            cases hw2
            exact hgt hgt2
        · intro _; rfl

/-- Witness for C5: the spec's overflow example — nine 1-bit sub-fields
over `uint8` storage fail validation (9 > 8). -/
theorem c5_witness :
    ∃ e, check_bitfield "S"
      ⟨"bits", 3, "bitfield", some "uint8", some nine_bits, none, "little"⟩ =
        .error e :=
  (c5_check_bitfield_iff "S" _ "uint8" nine_bits rfl (Or.inr rfl) rfl).1.mpr
    (Or.inr ⟨1, rfl, by decide⟩)

/-- C4: corrected — for every field whose effective storage type (element
type for array/bitfield, else its own type) is rejected by the program's
validator, `check_field` fails, but the failure is a `NameError` (the raise
formats an unbound variable `name`), which carries no schema message — in
particular no message naming the structure (which `_check_field` does not
even receive) or the field.  The validator accepts `uintptr` and the eight
fixed-width kind names, each also with a single trailing newline (Python's
non-MULTILINE `$`), which bounds the claim's scope. -/
theorem c4_check_field_failure (f : Field) (c : String)
    (hc : (if f.ty = "array" ∨ f.ty = "bitfield" then f.sub_type
           else some f.ty) = some c) :
    (check_field f = .ok () ↔ validate_integral_type c = true)
    ∧ (validate_integral_type c = false →
        check_field f = .error (.nameError "name")
        ∧ err_message (.nameError "name") = none)
    ∧ (∀ s : String, validate_integral_type s = true ↔
        (s = "uintptr" ∨ kind_name s = true ∨
         (s.data.getLast? = some '\n' ∧
          kind_name (String.mk s.data.dropLast) = true))) := by
  have hcf : check_field f =
      (if validate_integral_type c then .ok () else .error (.nameError "name")) := by
    unfold check_field
    rw [hc]
  refine ⟨?_, ?_, ?_⟩
  · by_cases hv : validate_integral_type c = true
    · rw [hcf, if_pos hv]
      exact ⟨fun _ => hv, fun _ => rfl⟩
    · rw [hcf, if_neg hv]
      constructor
      · intro h
        cases h
      · intro h
        exact absurd h hv
  · intro hv
    rw [hcf, if_neg (by rw [hv]; exact Bool.false_ne_true)]
    exact ⟨rfl, rfl⟩
  · intro s
    simp only [validate_integral_type, name_re_match, Bool.or_eq_true,
      Bool.and_eq_true, decide_eq_true_eq]

/-- C4 counterexample: at the invalid scalar type `float32`, `check_field`
raises `NameError` (from the unbound `name` in the message formatting),
not a schema error carrying a message that names the structure and
field. -/
theorem c4_counterexample :
    check_field ⟨"f", 0, "float32", none, none, none, "little"⟩ =
      .error (.nameError "name")
    ∧ err_message (.nameError "name") = none := ⟨rfl, rfl⟩

/-- Witness for C4's amended statement at the concrete invalid field. -/
theorem c4_witness :
    check_field ⟨"f", 0, "float32", none, none, none, "little"⟩ =
      .error (.nameError "name") :=
  (((c4_check_field_failure ⟨"f", 0, "float32", none, none, none, "little"⟩
      "float32" rfl).2.1) rfl).1

/-- C2: code bug — the array regex `(.*?)\[(\d)+\]` repeats the
single-character capturing group, so `group(2)` is only the LAST digit of
a multi-digit count: parsing the field type `uint16[12]` yields
`array_num = 2`, not 12. -/
theorem c2_array_length_last_digit :
    add_one_field "S" "little" ⟨"arr", 0, "uint16[12]", none, none⟩ =
      .ok ⟨"arr", 0, "array", some "uint16", none, some 2, "little"⟩ := rfl

/-- C8: corrected — the emitted member name is Python `title()` of the
declared name (the first letter of every letter group uppercased and
every other letter lowercased), not capitalize-first-letter; the same
transform (`output_field_name`) is applied consistently to the type
declaration's members and to the decode procedure's read targets and
bitfield sub-field assignments. -/
theorem c8_member_naming (f : Field) :
    (∀ name, output_field_name name = pyTitle name)
    ∧ (f.ty ≠ "bitfield" → f.ty ≠ "array" →
        defn_field_lines f = ["\t" ++ output_field_name f.name ++ " " ++ f.ty])
    ∧ (∀ ctr ln le seg c2, f.ty ≠ "bitfield" →
        field_segment ctr ln le f = .ok (seg, c2) →
        ("err = binary.Read(input, " ++ endian_str f ++ ", &" ++
          ("output." ++ output_field_name f.name) ++ ")") ∈ seg)
    ∧ (∀ subs, f.ty = "bitfield" → f.bit_fields = some subs →
        defn_field_lines f = subs.map (fun sub =>
          "\t" ++ output_field_name sub.name ++ " " ++ optStr f.sub_type)
        ∧ ∀ tmp off, bit_unpack_lines tmp off subs = bit_unpack_flat tmp off subs) := by
  refine ⟨fun _ => rfl, ?_, ?_, ?_⟩
  · intro h1 h2
    unfold defn_field_lines
    rw [if_neg h1, if_neg h2]
  · intro ctr ln le seg c2 hbf h
    simp only [field_segment] at h
    rw [if_neg hbf] at h
    cases h
    simp [read_err_lines]
  · intro subs h1 h2
    constructor
    · unfold defn_field_lines
      rw [if_pos h1, h2]
      rfl
    · intro tmp off
      exact bit_unpack_lines_eq_flat tmp off subs

/-- C8 counterexample: for the declared name `not_a_flag` the emitted
member name is `Not_A_Flag` (Python `title()`), not the
capitalize-first-letter `Not_a_flag` the claim states. -/
theorem c8_counterexample :
    output_field_name "not_a_flag" = "Not_A_Flag"
    ∧ capitalize_first "not_a_flag" = "Not_a_flag"
    ∧ output_field_name "not_a_flag" ≠ capitalize_first "not_a_flag" := by
  refine ⟨rfl, rfl, ?_⟩
  decide

/-- Witness for C8's amended statement at a concrete scalar field. -/
theorem c8_witness :
    defn_field_lines ⟨"not_a_flag", 0, "uint8", none, none, none, "little"⟩ =
      ["\t" ++ output_field_name "not_a_flag" ++ " uint8"] :=
  (c8_member_naming ⟨"not_a_flag", 0, "uint8", none, none, none, "little"⟩).2.1
    (by decide) (by decide)

/-- C9: generation is a pure function of the input schema value: two runs
of the parse-and-generate pipeline on equal input produce the same result,
and in particular character-identical output text. -/
theorem c9_determinism (pkg : String) (s1 s2 : List StructSpec) (h : s1 = s2) :
    pipeline pkg s1 = pipeline pkg s2
    ∧ ∀ out1 out2, pipeline pkg s1 = .ok out1 → pipeline pkg s2 = .ok out2 →
        out1.data = out2.data := by
  subst h
  refine ⟨rfl, ?_⟩
  intro o1 o2 h1 h2
  rw [h1] at h2
  cases h2
  rfl

/-- Witness for C9 at the module docstring's `Test1` schema. -/
theorem c9_witness :
    pipeline "test1" [test1_spec] = pipeline "test1" [test1_spec] :=
  (c9_determinism "test1" [test1_spec] [test1_spec] rfl).1

lemma head_of_append_lit (s t : String) (c : Char) (h : s.data.head? = some c) :
    (s ++ t).data.head? = some c := by
  rw [String.data_append]
  cases hd : s.data with
  | nil => rw [hd] at h; simp at h
  | cons a as =>
    rw [hd] at h
    simp only [List.head?_cons, Option.some.injEq] at h
    subst h
    rfl

lemma starts_lit_false (p l : String) (cp cl : Char) (hp : p.data.head? = some cp)
    (hl : l.data.head? = some cl) (hne : cp ≠ cl) : starts_lit p l = false := by
  unfold starts_lit
  cases hpd : p.data with
  | nil => rw [hpd] at hp; simp at hp
  | cons a as =>
    cases hld : l.data with
    | nil => rw [hld] at hl; simp at hl
    | cons b bs =>
      rw [hpd] at hp
      rw [hld] at hl
      simp at hp hl
      subst hp
      subst hl
      simp [List.isPrefixOf]
      intro hab
      exact absurd hab hne

lemma field_segment_nonbf (ctr : Nat) (ln : String) (le : Nat) (f : Field)
    (seg : List String) (c2 : Nat)
    (h : field_segment ctr ln le f = .ok (seg, c2)) (hty : f.ty ≠ "bitfield") :
    seg = (if ((f.offset : Int) - (le : Int)) ≠ 0 then
             slack_lines ((f.offset : Int) - (le : Int)) ln f.name
               ("temp" ++ toString ctr)
           else []) ++ [read_comment_line f] ++
          read_err_lines f ("output." ++ output_field_name f.name) := by
  simp only [field_segment] at h
  rw [if_neg hty] at h
  cases h
  rfl

lemma field_segment_bf (ctr : Nat) (ln : String) (le : Nat) (f : Field)
    (seg : List String) (c2 : Nat)
    (h : field_segment ctr ln le f = .ok (seg, c2)) (hty : f.ty = "bitfield") :
    ∃ subs, f.bit_fields = some subs ∧
      seg = (if ((f.offset : Int) - (le : Int)) ≠ 0 then
               slack_lines ((f.offset : Int) - (le : Int)) ln f.name
                 ("temp" ++ toString ctr)
             else []) ++ [read_comment_line f] ++
            ["var " ++ ("temp" ++ toString
               (if ((f.offset : Int) - (le : Int)) ≠ 0 then ctr + 1 else ctr)) ++
               " " ++ optStr f.sub_type] ++
            read_err_lines f ("temp" ++ toString
               (if ((f.offset : Int) - (le : Int)) ≠ 0 then ctr + 1 else ctr)) ++
            bit_unpack_lines ("temp" ++ toString
               (if ((f.offset : Int) - (le : Int)) ≠ 0 then ctr + 1 else ctr))
              0 subs ++ [""] := by
  simp only [field_segment] at h
  rw [if_pos hty] at h
  cases hbf : f.bit_fields with
  | none => rw [hbf] at h; cases h
  | some subs =>
    rw [hbf] at h
    cases h
    exact ⟨subs, rfl, rfl⟩

lemma slack_lines_no_err_check (d : Int) (a b t : String) :
    ∀ l ∈ slack_lines d a b t,
      starts_lit "err" l = false ∧ starts_lit "if" l = false := by
  intro l hl
  simp only [slack_lines, List.mem_cons, List.not_mem_nil, or_false] at hl
  rcases hl with h | h | h | h
  · subst h
    constructor
    · refine starts_lit_false _ _ 'e' '/' rfl ?_ (by decide)
      repeat apply head_of_append_lit
      rfl
    · refine starts_lit_false _ _ 'i' '/' rfl ?_ (by decide)
      repeat apply head_of_append_lit
      rfl
  · subst h
    constructor
    · refine starts_lit_false _ _ 'e' 'v' rfl ?_ (by decide)
      repeat apply head_of_append_lit
      rfl
    · refine starts_lit_false _ _ 'i' 'v' rfl ?_ (by decide)
      repeat apply head_of_append_lit
      rfl
  · subst h
    constructor
    · refine starts_lit_false _ _ 'e' 'b' rfl ?_ (by decide)
      repeat apply head_of_append_lit
      rfl
    · refine starts_lit_false _ _ 'i' 'b' rfl ?_ (by decide)
      repeat apply head_of_append_lit
      rfl
  · subst h
    exact ⟨rfl, rfl⟩

lemma bit_unpack_heads (tmp : String) (off : Nat) (subs : List BitField) :
    ∀ l ∈ bit_unpack_lines tmp off subs,
      l.data.head? = some '/' ∨ l.data.head? = some 'o' := by
  induction subs generalizing off with
  | nil => intro l hl; simp [bit_unpack_lines] at hl
  | cons b r ih =>
    intro l hl
    simp only [bit_unpack_lines, List.mem_cons] at hl
    rcases hl with h | h | h
    · subst h
      left
      repeat apply head_of_append_lit
      rfl
    · subst h
      right
      repeat apply head_of_append_lit
      rfl
    · exact ih (off + b.size) l h

lemma field_segment_take4 (ctr : Nat) (ln : String) (le : Nat) (f : Field)
    (seg : List String) (c2 : Nat)
    (h : field_segment ctr ln le f = .ok (seg, c2))
    (hd : ((f.offset : Int) - (le : Int)) ≠ 0) :
    seg.take 4 = slack_lines ((f.offset : Int) - (le : Int)) ln f.name
      ("temp" ++ toString ctr) := by
  by_cases hty : f.ty = "bitfield"
  · obtain ⟨subs, _, hseg⟩ := field_segment_bf ctr ln le f seg c2 h hty
    rw [hseg, if_pos hd]
    simp only [List.append_assoc]
    exact List.take_left' rfl
  · rw [field_segment_nonbf ctr ln le f seg c2 h hty, if_pos hd]
    simp only [List.append_assoc]
    exact List.take_left' rfl

lemma emit_field_last_end (st : EmitSt) (f : Field) (r : EmitSt)
    (h : emit_field st f = .ok r) : field_end f = .ok r.last_end := by
  cases hfs : field_segment st.ctr st.last_name st.last_end f with
  | error e =>
    simp only [emit_field, hfs, bind, Except.bind] at h
    exact Except.noConfusion h
  | ok p =>
    obtain ⟨sg, cc⟩ := p
    cases hfe : field_end f with
    | error e =>
      simp only [emit_field, hfs, hfe, bind, Except.bind, Functor.map,
        Except.map] at h
      exact Except.noConfusion h
    | ok l2 =>
      simp only [emit_field, hfs, hfe, bind, Except.bind, Functor.map,
        Except.map, pure, Except.pure, Except.ok.injEq] at h
      rw [← h]

/-- C10: For every slack span, the emitted slack-consuming read discards
the result without any error check — its four lines are the slack comment,
a `[n]byte` temporary, a bare `binary.Read` call not assigned to `err`
(no line of the slack block starts with `err` or `if`), and a blank line —
and it always uses `binary.LittleEndian`, for every declared endianness of
the following field; the following field read, by contrast, is assigned to
`err` and followed by an abort-on-failure branch. -/
theorem c10_slack_unchecked_little_endian (ctr : Nat) (ln : String) (le : Nat)
    (f : Field) (seg : List String) (c2 : Nat)
    (h : field_segment ctr ln le f = .ok (seg, c2))
    (hd : ((f.offset : Int) - (le : Int)) ≠ 0) :
    seg.take 4 = slack_lines ((f.offset : Int) - (le : Int)) ln f.name
      ("temp" ++ toString ctr)
    ∧ (slack_lines ((f.offset : Int) - (le : Int)) ln f.name
        ("temp" ++ toString ctr))[2]? =
      some ("binary.Read(input, binary.LittleEndian, &" ++
        ("temp" ++ toString ctr) ++ ")")
    ∧ (∀ l ∈ slack_lines ((f.offset : Int) - (le : Int)) ln f.name
        ("temp" ++ toString ctr),
        starts_lit "err" l = false ∧ starts_lit "if" l = false)
    ∧ (∀ e seg2 c3, field_segment ctr ln le { f with endian := e } = .ok (seg2, c3) →
        seg2.take 4 = seg.take 4)
    ∧ "if err != nil \x7b" ∈ seg
    ∧ (∃ target, ("err = binary.Read(input, " ++ endian_str f ++ ", &" ++
        target ++ ")") ∈ seg) := by
  have htake := field_segment_take4 ctr ln le f seg c2 h hd
  refine ⟨htake, rfl, slack_lines_no_err_check _ _ _ _, ?_, ?_, ?_⟩
  · intro e seg2 c3 h2
    have htake2 := field_segment_take4 ctr ln le { f with endian := e } seg2 c3 h2 hd
    rw [htake2, htake]
  · by_cases hty : f.ty = "bitfield"
    · obtain ⟨subs, _, hseg⟩ := field_segment_bf ctr ln le f seg c2 h hty
      rw [hseg]
      simp [read_err_lines]
    · rw [field_segment_nonbf ctr ln le f seg c2 h hty]
      simp [read_err_lines]
  · by_cases hty : f.ty = "bitfield"
    · obtain ⟨subs, _, hseg⟩ := field_segment_bf ctr ln le f seg c2 h hty
      rw [hseg]
      refine ⟨"temp" ++ toString
        (if ((f.offset : Int) - (le : Int)) ≠ 0 then ctr + 1 else ctr), ?_⟩
      simp [read_err_lines]
    · rw [field_segment_nonbf ctr ln le f seg c2 h hty]
      refine ⟨"output." ++ output_field_name f.name, ?_⟩
      simp [read_err_lines]

/-- Witness for C10 at a concrete two-byte slack gap (state after a
`uint8` at offset 0, next field at offset 3). -/
theorem c10_witness :
    ∃ seg c2, field_segment 0 "a" 1
      ⟨"b", 3, "uint8", none, none, none, "big"⟩ = .ok (seg, c2)
      ∧ seg.take 4 = slack_lines 2 "a" "b" "temp0"
      ∧ "if err != nil \x7b" ∈ seg := by
  obtain ⟨seg, c2, h⟩ : ∃ seg c2, field_segment 0 "a" 1
      ⟨"b", 3, "uint8", none, none, none, "big"⟩ = .ok (seg, c2) := ⟨_, _, rfl⟩
  obtain ⟨h1, _, _, _, h5, _⟩ :=
    c10_slack_unchecked_little_endian 0 "a" 1
      ⟨"b", 3, "uint8", none, none, none, "big"⟩ seg c2 h (by decide)
  exact ⟨seg, c2, h, h1, h5⟩

lemma no_bread_of_head (l : String) (c : Char) (hl : l.data.head? = some c)
    (hc : ('b' : Char) ≠ c) : starts_lit "binary.Read(" l = false :=
  starts_lit_false _ _ 'b' c rfl hl hc

lemma comment_no_bread (f : Field) :
    starts_lit "binary.Read(" (read_comment_line f) = false := by
  refine no_bread_of_head _ '/' ?_ (by decide)
  unfold read_comment_line
  repeat apply head_of_append_lit
  rfl

lemma read_err_no_bread (f : Field) (fn : String) :
    ∀ l ∈ read_err_lines f fn, starts_lit "binary.Read(" l = false := by
  intro l hl
  simp only [read_err_lines, List.mem_cons, List.not_mem_nil, or_false] at hl
  rcases hl with h | h | h | h | h
  · subst h
    refine no_bread_of_head _ 'e' ?_ (by decide)
    repeat apply head_of_append_lit
    rfl
  · subst h
    exact no_bread_of_head _ 'i' rfl (by decide)
  · subst h
    refine no_bread_of_head _ '\t' ?_ (by decide)
    repeat apply head_of_append_lit
    rfl
  · subst h
    exact no_bread_of_head _ '\x7d' rfl (by decide)
  · subst h
    rfl

/-- C1: corrected — for every pair of consecutive fields in the
offset-sorted field list, the emitted decode procedure contains a
slack-consuming read before the current field if and only if the current
field's offset DIFFERS from the previous field's computed end (the source
tests `diff != 0`, so a negative difference — an overlapping field — also
emits a slack read, with the negative count); the emitted span's byte
count is that difference, which equals the gap whenever the gap is
positive, and when the difference is zero no slack read is emitted.  The
state threaded between consecutive fields carries the previous field's
computed end offset. -/
theorem c1_slack_iff_nonzero_diff (ctr : Nat) (ln : String) (le : Nat)
    (f : Field) (seg : List String) (c2 : Nat)
    (h : field_segment ctr ln le f = .ok (seg, c2)) :
    (((f.offset : Int) - (le : Int)) ≠ 0 →
      seg.take 4 = slack_lines ((f.offset : Int) - (le : Int)) ln f.name
        ("temp" ++ toString ctr)
      ∧ seg[1]? = some ("var " ++ ("temp" ++ toString ctr) ++ " [" ++
          toString ((f.offset : Int) - (le : Int)) ++ "]byte")
      ∧ seg[4]? = some (read_comment_line f))
    ∧ (((f.offset : Int) - (le : Int)) = 0 →
      (∃ rest, seg = read_comment_line f :: rest)
      ∧ ∀ l ∈ seg, starts_lit "binary.Read(" l = false)
    ∧ (∀ st r, emit_field st f = .ok r → field_end f = .ok r.last_end) := by
  refine ⟨?_, ?_, ?_⟩
  · intro hd
    have htake := field_segment_take4 ctr ln le f seg c2 h hd
    have h1 : seg[1]? = (seg.take 4)[1]? := by
      rw [List.getElem?_take]
      simp
    have hcomment : seg[4]? = some (read_comment_line f) := by
      by_cases hty : f.ty = "bitfield"
      · obtain ⟨subs, _, hseg⟩ := field_segment_bf ctr ln le f seg c2 h hty
        rw [hseg, if_pos hd]
        simp only [List.append_assoc, List.singleton_append]
        rw [List.getElem?_append_right (by simp [slack_lines])]
        simp [slack_lines]
      · rw [field_segment_nonbf ctr ln le f seg c2 h hty, if_pos hd]
        simp only [List.append_assoc, List.singleton_append]
        rw [List.getElem?_append_right (by simp [slack_lines])]
        simp [slack_lines]
    refine ⟨htake, ?_, hcomment⟩
    rw [h1, htake]
    rfl
  · intro hz
    have hne : ¬(((f.offset : Int) - (le : Int)) ≠ 0) := not_not_intro hz
    by_cases hty : f.ty = "bitfield"
    · obtain ⟨subs, _, hseg⟩ := field_segment_bf ctr ln le f seg c2 h hty
      have hseg2 : seg = read_comment_line f ::
          ("var " ++ ("temp" ++ toString ctr) ++ " " ++ optStr f.sub_type) ::
          (read_err_lines f ("temp" ++ toString ctr) ++
           (bit_unpack_lines ("temp" ++ toString ctr) 0 subs ++ [""])) := by
        rw [hseg, if_neg hne, if_neg hne]
        simp [List.append_assoc]
      rw [hseg2]
      constructor
      · exact ⟨_, rfl⟩
      · intro l hl
        simp only [List.mem_cons] at hl
        rcases hl with hc | hl
        · subst hc
          exact comment_no_bread f
        rcases hl with hv | hl
        · subst hv
          refine no_bread_of_head _ 'v' ?_ (by decide)
          repeat apply head_of_append_lit
          rfl
        rcases List.mem_append.mp hl with herr | hl2
        · exact read_err_no_bread f _ l herr
        rcases List.mem_append.mp hl2 with hup | hone
        · rcases bit_unpack_heads _ 0 subs l hup with hh | hh
          · exact no_bread_of_head _ '/' hh (by decide)
          · exact no_bread_of_head _ 'o' hh (by decide)
        · simp only [List.mem_singleton] at hone
          subst hone
          rfl
    · rw [field_segment_nonbf ctr ln le f seg c2 h hty, if_neg hne]
      constructor
      · exact ⟨_, rfl⟩
      · intro l hl
        simp only [List.nil_append, List.singleton_append, List.mem_cons] at hl
        rcases hl with hc | herr
        · subst hc
          exact comment_no_bread f
        · exact read_err_no_bread f _ l herr
  · exact fun st r hr => emit_field_last_end st f r hr

/-- C1 counterexample: in `overlap_struct` the field `b@2:uint8` follows
`a@0:uint32`, whose computed end is 4; the gap `2 - 4 = -2` is not
positive, yet the emitted decode procedure contains a slack-consuming
read (`var temp0 [-2]byte` plus a bare `binary.Read`) before `b`. -/
theorem c1_counterexample :
    ¬(0 < (2 : Int) - 4)
    ∧ field_end ⟨"a", 0, "uint32", none, none, none, "little"⟩ = .ok 4
    ∧ sort_fields overlap_struct.fields = overlap_struct.fields
    ∧ "\tvar temp0 [-2]byte" ∈ (generator_add_one overlap_struct).toOption.getD []
    ∧ "\tbinary.Read(input, binary.LittleEndian, &temp0)" ∈
        (generator_add_one overlap_struct).toOption.getD [] := by
  refine ⟨by decide, rfl, rfl, ?_, ?_⟩ <;> decide

/-- Witness for C1's amended statement at the spec's explicit-slack
example: after `a@0:uint8` (end 1), the field `b@3:uint8` is preceded by a
2-byte slack read. -/
theorem c1_witness :
    ∃ seg c2, field_segment 0 "a" 1
      ⟨"b", 3, "uint8", none, none, none, "little"⟩ = .ok (seg, c2)
      ∧ seg.take 4 = slack_lines 2 "a" "b" "temp0"
      ∧ seg[1]? = some "var temp0 [2]byte" := by
  obtain ⟨seg, c2, h⟩ : ∃ seg c2, field_segment 0 "a" 1
      ⟨"b", 3, "uint8", none, none, none, "little"⟩ = .ok (seg, c2) := ⟨_, _, rfl⟩
  obtain ⟨h1, -, -⟩ := c1_slack_iff_nonzero_diff 0 "a" 1
    ⟨"b", 3, "uint8", none, none, none, "little"⟩ seg c2 h
  obtain ⟨ht, hv, -⟩ := h1 (by decide)
  exact ⟨seg, c2, h, ht, hv⟩

lemma emit_field_code (st : EmitSt) (f : Field) (r : EmitSt)
    (h : emit_field st f = .ok r) :
    ∃ seg, r.code = st.code ++ seg ∧ read_comment_line f ∈ seg := by
  cases hfs : field_segment st.ctr st.last_name st.last_end f with
  | error e =>
    simp only [emit_field, hfs, bind, Except.bind] at h
    exact Except.noConfusion h
  | ok p =>
    obtain ⟨sg, cc⟩ := p
    cases hfe : field_end f with
    | error e =>
      simp only [emit_field, hfs, hfe, bind, Except.bind, Functor.map,
        Except.map] at h
      exact Except.noConfusion h
    | ok l2 =>
      simp only [emit_field, hfs, hfe, bind, Except.bind, Functor.map,
        Except.map, pure, Except.pure, Except.ok.injEq] at h
      subst h
      refine ⟨sg, rfl, ?_⟩
      by_cases hty : f.ty = "bitfield"
      · obtain ⟨subs, _, hseg⟩ := field_segment_bf _ _ _ _ _ _ hfs hty
        rw [hseg]
        simp
      · rw [field_segment_nonbf _ _ _ _ _ _ hfs hty]
        simp

lemma fold_code_comments (fields : List Field) :
    ∀ (st fin : EmitSt), List.foldlM emit_field st fields = .ok fin →
      ∃ tail, fin.code = st.code ++ tail ∧
        (fields.map read_comment_line).Sublist tail := by
  induction fields with
  | nil =>
    intro st fin h
    simp only [List.foldlM_nil, pure, Except.pure, Except.ok.injEq] at h
    subst h
    exact ⟨[], by simp, by simp⟩
  | cons f fs ih =>
    intro st fin h
    rw [List.foldlM_cons] at h
    cases he : emit_field st f with
    | error e =>
      rw [he] at h
      simp only [bind, Except.bind] at h
      exact Except.noConfusion h
    | ok r =>
      rw [he] at h
      simp only [bind, Except.bind] at h
      obtain ⟨seg, hcode, hmem⟩ := emit_field_code st f r he
      obtain ⟨tail2, hc2, hsub⟩ := ih r fin h
      refine ⟨seg ++ tail2, ?_, ?_⟩
      · rw [hc2, hcode, List.append_assoc]
      · rw [List.map_cons, ← List.singleton_append]
        exact List.Sublist.append (List.singleton_sublist.mpr hmem) hsub

/-- C6: For every structure (also one declared out of ascending-offset
order), the emitted type declaration lists members in declaration order,
with a bitfield expanding into one member per sub-field (none for the
bitfield itself), while the emitted decode procedure reads the fields in
ascending offset order: the offset-sorted list is an offset-ascending
permutation of the declared fields, the per-field read comments appear in
the output in that sorted order, and the slack state is threaded along
that sorted sequence. -/
theorem c6_order_independence (s : Struct) (L : List String)
    (h : generator_add_one s = .ok L) :
    List.Pairwise (fun a b : Field => a.offset ≤ b.offset) (sort_fields s.fields)
    ∧ (sort_fields s.fields).Perm s.fields
    ∧ ((sort_fields s.fields).map
        (fun f => "\t" ++ read_comment_line f)).Sublist L
    ∧ (∃ oname rest, output_struct_name s.name = .ok oname ∧
        L = ["type " ++ oname ++ " struct \x7b"] ++
            s.fields.flatMap defn_field_lines ++ ["\x7d"] ++ rest)
    ∧ (∀ f subs, f.ty = "bitfield" → f.bit_fields = some subs →
        defn_field_lines f = subs.map (fun sub =>
          "\t" ++ output_field_name sub.name ++ " " ++ optStr f.sub_type)) := by
  haveI hto : IsTotal Field (fun a b : Field => a.offset ≤ b.offset) :=
    ⟨fun a b => Nat.le_total a.offset b.offset⟩
  haveI htr : IsTrans Field (fun a b : Field => a.offset ≤ b.offset) :=
    ⟨fun _ _ _ hab hbc => Nat.le_trans hab hbc⟩
  cases hon : output_struct_name s.name with
  | error e =>
    simp only [generator_add_one, hon, bind, Except.bind] at h
    exact Except.noConfusion h
  | ok oname =>
    cases hgc : gen_code_lines oname (sort_fields s.fields) with
    | error e =>
      simp only [generator_add_one, hon, hgc, bind, Except.bind] at h
      exact Except.noConfusion h
    | ok rp =>
      obtain ⟨code, total⟩ := rp
      simp only [generator_add_one, hon, hgc, bind, Except.bind, pure,
        Except.pure, Except.ok.injEq] at h
      cases hfold : List.foldlM emit_field
          ⟨0, "*beginning of structure*", 0,
           ["var output " ++ oname, "var err error", ""]⟩
          (sort_fields s.fields) with
      | error e =>
        simp only [gen_code_lines, hfold, bind, Except.bind] at hgc
        exact Except.noConfusion hgc
      | ok fin =>
        simp only [gen_code_lines, hfold, bind, Except.bind, pure, Except.pure,
          Except.ok.injEq, Prod.mk.injEq] at hgc
        obtain ⟨hcode, -⟩ := hgc
        obtain ⟨tail, hfc, hsub⟩ := fold_code_comments (sort_fields s.fields) _ fin hfold
        refine ⟨List.sorted_insertionSort _ s.fields,
          List.perm_insertionSort _ s.fields, ?_,
          ⟨oname, [""] ++ ["func Parse" ++ oname ++ "(input io.Reader) (*" ++
            oname ++ ", error) \x7b"] ++ code.map (fun x => "\t" ++ x) ++
            ["\x7d"], rfl, ?_⟩, ?_⟩
        · have h1 : ((sort_fields s.fields).map
              (fun f => "\t" ++ read_comment_line f)).Sublist
              (tail.map (fun x => "\t" ++ x)) := by
            have := hsub.map (fun x => "\t" ++ x)
            simpa [List.map_map, Function.comp] using this
          have h2 : (tail.map (fun x => "\t" ++ x)).Sublist
              (code.map (fun x => "\t" ++ x)) := by
            rw [← hcode, hfc]
            simp only [List.map_append]
            exact ((List.sublist_append_right _ _).trans
              (List.sublist_append_left _ _))
          have h3 : (code.map (fun x => "\t" ++ x)).Sublist L := by
            rw [← h]
            exact (List.sublist_append_right _ _).trans
              (List.sublist_append_left _ _)
          exact (h1.trans h2).trans h3
        · rw [← h]
          simp [List.append_assoc]
        · intro f subs h1 h2
          unfold defn_field_lines
          rw [if_pos h1, h2]
          rfl

/-- Witness for C6 at a structure declared out of ascending-offset order
(`b@2:uint8` declared before `a@0:uint16`). -/
theorem c6_witness :
    ∃ L, generator_add_one
      ⟨"t", [⟨"b", 2, "uint8", none, none, none, "little"⟩,
             ⟨"a", 0, "uint16", none, none, none, "little"⟩]⟩ = .ok L
      ∧ List.Pairwise (fun a b : Field => a.offset ≤ b.offset)
          (sort_fields [⟨"b", 2, "uint8", none, none, none, "little"⟩,
                        ⟨"a", 0, "uint16", none, none, none, "little"⟩])
      ∧ (sort_fields [⟨"b", 2, "uint8", none, none, none, "little"⟩,
                      ⟨"a", 0, "uint16", none, none, none, "little"⟩]).Perm
          [⟨"b", 2, "uint8", none, none, none, "little"⟩,
           ⟨"a", 0, "uint16", none, none, none, "little"⟩] := by
  obtain ⟨L, hL⟩ : ∃ L, generator_add_one
      ⟨"t", [⟨"b", 2, "uint8", none, none, none, "little"⟩,
             ⟨"a", 0, "uint16", none, none, none, "little"⟩]⟩ = .ok L := ⟨_, rfl⟩
  obtain ⟨hp, hperm, -, -, -⟩ := c6_order_independence _ L hL
  exact ⟨L, hL, hp, hperm⟩

lemma fold_last_end (fields : List Field) :
    ∀ (st fin : EmitSt), List.foldlM emit_field st fields = .ok fin →
      (fields = [] ∧ fin.last_end = st.last_end) ∨
        (∃ lf, fields.getLast? = some lf ∧ field_end lf = .ok fin.last_end) := by
  induction fields with
  | nil =>
    intro st fin h
    simp only [List.foldlM_nil, pure, Except.pure, Except.ok.injEq] at h
    subst h
    exact Or.inl ⟨rfl, rfl⟩
  | cons f fs ih =>
    intro st fin h
    rw [List.foldlM_cons] at h
    cases he : emit_field st f with
    | error e =>
      rw [he] at h
      simp only [bind, Except.bind] at h
      exact Except.noConfusion h
    | ok r =>
      rw [he] at h
      simp only [bind, Except.bind] at h
      rcases ih r fin h with ⟨hnil, hle⟩ | ⟨lf, hlast, hend⟩
      · subst hnil
        refine Or.inr ⟨f, rfl, ?_⟩
        rw [hle]
        exact emit_field_last_end st f r he
      · refine Or.inr ⟨lf, ?_, hend⟩
        cases fs with
        | nil => exact absurd hlast (by simp)
        | cons g gs => rw [List.getLast?_cons_cons]; exact hlast

/-- C7: For every field the computed end offset is
`offset + byte_width(type)` for a scalar,
`offset + byte_width(element_type) * array_length` for an array, and
`offset + byte_width(storage_type)` for a bitfield; and the total decoded
size reported in the trailing annotation of the generated decode procedure
equals the end offset of the final field in offset order (0 for an empty
field list). -/
theorem c7_end_offsets_total_size (s : Struct) (oname : String)
    (code : List String) (total : Nat)
    (h : gen_code_lines oname (sort_fields s.fields) = .ok (code, total)) :
    (∀ f w, f.ty ≠ "array" → f.ty ≠ "bitfield" → SIZES f.ty = some w →
        field_end f = .ok (f.offset + w))
    ∧ (∀ f st n w, f.ty = "array" → f.sub_type = some st →
        f.array_num = some n → SIZES st = some w →
        field_end f = .ok (f.offset + w * n))
    ∧ (∀ f st w, f.ty = "bitfield" → f.sub_type = some st → SIZES st = some w →
        field_end f = .ok (f.offset + w))
    ∧ (∃ pre, code = pre ++
        ["// Total size of structure: " ++ toString total ++ " bytes",
         "return &output, nil"])
    ∧ (sort_fields s.fields = [] → total = 0)
    ∧ (∀ lf, (sort_fields s.fields).getLast? = some lf →
        field_end lf = .ok total) := by
  cases hfold : List.foldlM emit_field
      ⟨0, "*beginning of structure*", 0,
       ["var output " ++ oname, "var err error", ""]⟩
      (sort_fields s.fields) with
  | error e =>
    simp only [gen_code_lines, hfold, bind, Except.bind] at h
    exact Except.noConfusion h
  | ok fin =>
    simp only [gen_code_lines, hfold, bind, Except.bind, pure, Except.pure,
      Except.ok.injEq, Prod.mk.injEq] at h
    obtain ⟨hcode, htotal⟩ := h
    refine ⟨?_, ?_, ?_, ?_, ?_, ?_⟩
    · intro f w h1 h2 h3
      simp [field_end, h1, h2, h3]
    · intro f st n w h1 h2 h3 h4
      simp [field_end, h1, h2, h3, h4]
    · intro f st w h1 h2 h3
      simp [field_end, h1, h2, h3]
    · exact ⟨fin.code, by rw [← hcode, htotal]⟩
    · intro hnil
      rcases fold_last_end (sort_fields s.fields) _ fin hfold with
        ⟨-, hle⟩ | ⟨lf, hlast, -⟩
      · rw [← htotal, hle]
      · rw [hnil] at hlast
        exact absurd hlast (by simp)
    · intro lf hlast
      rcases fold_last_end (sort_fields s.fields) _ fin hfold with
        ⟨hnil, -⟩ | ⟨lf2, hlast2, hend2⟩
      · rw [hnil] at hlast
        exact absurd hlast (by simp)
      · rw [hlast] at hlast2
        cases hlast2
        rw [htotal] at hend2
        exact hend2

/-- Witness for C7 at the spec's array-sizing example: `arr@4:uint16[2]`
yields end offset `4 + 2*2 = 8`. -/
theorem c7_witness :
    field_end ⟨"arr", 4, "array", some "uint16", none, some 2, "little"⟩ =
      .ok (4 + 2 * 2) := by
  obtain ⟨code, total, h⟩ : ∃ code total, gen_code_lines "T"
      (sort_fields [⟨"arr", 4, "array", some "uint16", none, some 2, "little"⟩]) =
      .ok (code, total) := ⟨_, _, rfl⟩
  exact (c7_end_offsets_total_size
    ⟨"T", [⟨"arr", 4, "array", some "uint16", none, some 2, "little"⟩]⟩
    "T" code total h).2.1
    ⟨"arr", 4, "array", some "uint16", none, some 2, "little"⟩
    "uint16" 2 2 rfl rfl rfl rfl

end BinGen
